import Mathlib

/-!
Shallow embedding of the `multi-agent-simulation` core
(`vector2d.py`, `boundary.py`, `agent.py`, `simulation.py`).

Real numbers stand for Python floats.  Operations that can raise a Python
exception (float division by zero, attribute access on a scalar stored in a
`Vector2D`-typed field) are embedded as `Option`-valued functions returning
`none` at the raising inputs.  The randomness consumed by the code
(`random.gauss`, `np.random.uniform`, `random.uniform`) is passed in
explicitly as oracle arguments.
-/

open Classical

/-- `Vector2D` from `vector2d.py`: a mutable pair of floats. -/
structure Vector2D where
  x : ℝ
  y : ℝ

/-- `Vector2D.__add__`. -/
def Vector2D.add (v w : Vector2D) : Vector2D := ⟨v.x + w.x, v.y + w.y⟩

/-- `Vector2D.__sub__`. -/
def Vector2D.sub (v w : Vector2D) : Vector2D := ⟨v.x - w.x, v.y - w.y⟩

/-- `Vector2D.__mul__` (and the commuted `__rmul__`): scale by a scalar. -/
def Vector2D.mul (v : Vector2D) (scalar : ℝ) : Vector2D := ⟨v.x * scalar, v.y * scalar⟩

/-- `Vector2D.__truediv__`.  Python float division raises `ZeroDivisionError`
on a zero divisor, embedded here as `none`. -/
noncomputable def Vector2D.truediv (v : Vector2D) (scalar : ℝ) : Option Vector2D :=
  if scalar = 0 then none else some ⟨v.x / scalar, v.y / scalar⟩

/-- `Vector2D.magnitude`: `sqrt(x**2 + y**2)`. -/
noncomputable def Vector2D.magnitude (v : Vector2D) : ℝ :=
  Real.sqrt (v.x ^ 2 + v.y ^ 2)

/-- `Vector2D.normalize`: returns the zero vector when the magnitude is zero. -/
noncomputable def Vector2D.normalize (v : Vector2D) : Vector2D :=
  if v.magnitude = 0 then ⟨0, 0⟩ else ⟨v.x / v.magnitude, v.y / v.magnitude⟩

/-- `Vector2D.distance_to`. -/
noncomputable def Vector2D.distance_to (v w : Vector2D) : ℝ := (v.sub w).magnitude

/-- `Vector2D.dot`. -/
def Vector2D.dot (v w : Vector2D) : ℝ := v.x * w.x + v.y * w.y

/-- `Vector2D.rotate`: rotation by `angle` radians (counter-clockwise). -/
noncomputable def Vector2D.rotate (v : Vector2D) (angle : ℝ) : Vector2D :=
  ⟨v.x * Real.cos angle - v.y * Real.sin angle,
   v.x * Real.sin angle + v.y * Real.cos angle⟩

/-- `Vector2D.add_randomness`: adds the two sampled Gaussian draws (passed in
explicitly as `nx`, `ny`) to the components. -/
def Vector2D.add_randomness (v : Vector2D) (nx ny : ℝ) : Vector2D :=
  ⟨v.x + nx, v.y + ny⟩

/-- `Vector2D.copy`. -/
def Vector2D.copy (v : Vector2D) : Vector2D := ⟨v.x, v.y⟩

theorem Vector2D.magnitude_nonneg (v : Vector2D) : 0 ≤ v.magnitude :=
  Real.sqrt_nonneg _

theorem Vector2D.magnitude_eq_zero_iff (v : Vector2D) :
    v.magnitude = 0 ↔ v = ⟨0, 0⟩ := by
  constructor
  · intro h
    have hle : v.x ^ 2 + v.y ^ 2 ≤ 0 := Real.sqrt_eq_zero'.mp h
    have h1 : v.x = 0 := by nlinarith [sq_nonneg v.x, sq_nonneg v.y]
    have h2 : v.y = 0 := by nlinarith [sq_nonneg v.x, sq_nonneg v.y]
    cases v
    simp_all
  · rintro rfl
    simp [Vector2D.magnitude]

theorem Vector2D.magnitude_mul (v : Vector2D) (s : ℝ) :
    (v.mul s).magnitude = |s| * v.magnitude := by
  unfold Vector2D.mul Vector2D.magnitude
  have h : (v.x * s) ^ 2 + (v.y * s) ^ 2 = s ^ 2 * (v.x ^ 2 + v.y ^ 2) := by ring
  simp only
  rw [h, Real.sqrt_mul (sq_nonneg s), Real.sqrt_sq_eq_abs]

theorem Vector2D.sq_magnitude (v : Vector2D) :
    v.magnitude ^ 2 = v.x ^ 2 + v.y ^ 2 :=
  Real.sq_sqrt (by positivity)

/-- Claim C10: `normalize v` is the zero vector iff `v` is the zero vector,
and for nonzero `v` the normalized vector has magnitude exactly 1. -/
theorem C10_normalize_zero_iff_and_unit (v : Vector2D) :
    (v.normalize = ⟨0, 0⟩ ↔ v = ⟨0, 0⟩) ∧
    (v ≠ ⟨0, 0⟩ → v.normalize.magnitude = 1) := by
  by_cases h : v.magnitude = 0
  · have hv : v = ⟨0, 0⟩ := (v.magnitude_eq_zero_iff).mp h
    refine ⟨?_, ?_⟩
    · simp [Vector2D.normalize, h, hv]
    · intro hne
      exact absurd hv hne
  · have hm : 0 < v.magnitude := lt_of_le_of_ne v.magnitude_nonneg (Ne.symm h)
    have hv : v ≠ ⟨0, 0⟩ := fun hv => h ((v.magnitude_eq_zero_iff).mpr hv)
    have hnorm : v.normalize = ⟨v.x / v.magnitude, v.y / v.magnitude⟩ := by
      simp [Vector2D.normalize, h]
    refine ⟨?_, ?_⟩
    · rw [hnorm]
      constructor
      · intro hzero
        have hx : v.x / v.magnitude = 0 := congrArg Vector2D.x hzero
        have hy : v.y / v.magnitude = 0 := congrArg Vector2D.y hzero
        have hx0 : v.x = 0 := by
          rcases div_eq_zero_iff.mp hx with h1 | h1
          · exact h1
          · exact absurd h1 h
        have hy0 : v.y = 0 := by
          rcases div_eq_zero_iff.mp hy with h1 | h1
          · exact h1
          · exact absurd h1 h
        cases v
        simp_all
      · intro hzero
        exact absurd hzero hv
    · intro _
      rw [hnorm]
      have hsum : (v.x / v.magnitude) ^ 2 + (v.y / v.magnitude) ^ 2 = 1 := by
        have hsq := v.sq_magnitude
        field_simp
        linarith
      have houter : Vector2D.magnitude ⟨v.x / v.magnitude, v.y / v.magnitude⟩ =
          Real.sqrt ((v.x / v.magnitude) ^ 2 + (v.y / v.magnitude) ^ 2) := rfl
      rw [houter, hsum, Real.sqrt_one]

/-- Witness for C10 at the concrete vector (3, 4). -/
theorem C10_witness : (Vector2D.mk 3 4).normalize.magnitude = 1 :=
  (C10_normalize_zero_iff_and_unit ⟨3, 4⟩).2 (by
    intro h
    have hx : (3 : ℝ) = 0 := congrArg Vector2D.x h
    norm_num at hx)

/-- Counterexample for C5 as stated: dividing the vector (1, 2) by the scalar
0 is not defined (Python raises `ZeroDivisionError`), so not every divisor
yields a defined result. -/
theorem C5_truediv_zero_counterexample : (Vector2D.mk 1 2).truediv 0 = none := by
  simp [Vector2D.truediv]

/-- Claim C5 (amended): divide-by-scalar is defined exactly for nonzero
divisors (division by zero raises); normalize and rotate applied to the zero
vector return a defined zero result rather than failing. -/
theorem C5_amended_division_and_degenerate_inputs (v : Vector2D) (s θ : ℝ) :
    (s ≠ 0 → v.truediv s = some ⟨v.x / s, v.y / s⟩) ∧
    v.truediv 0 = none ∧
    (Vector2D.mk 0 0).normalize = ⟨0, 0⟩ ∧
    (Vector2D.mk 0 0).rotate θ = ⟨0, 0⟩ := by
  refine ⟨?_, ?_, ?_, ?_⟩
  · intro hs
    simp [Vector2D.truediv, hs]
  · simp [Vector2D.truediv]
  · have h0 : (Vector2D.mk 0 0).magnitude = 0 := by
      simp [Vector2D.magnitude]
    simp [Vector2D.normalize, h0]
  · simp [Vector2D.rotate]

/-- Witness for the amended C5 at concrete inputs. -/
theorem C5_amended_witness :
    (Vector2D.mk 1 2).truediv 2 = some ⟨1 / 2, 2 / 2⟩ :=
  (C5_amended_division_and_degenerate_inputs ⟨1, 2⟩ 2 0).1 (by norm_num)

/-- `Boundary` from `boundary.py`: axis-aligned rectangle anchored at the
origin.  `min_x`, `max_x`, `min_y`, `max_y` are the derived wall coordinates
computed in `__init__`. -/
structure Boundary where
  width : ℝ
  height : ℝ

def Boundary.min_x (_ : Boundary) : ℝ := 0

def Boundary.max_x (b : Boundary) : ℝ := b.width

def Boundary.min_y (_ : Boundary) : ℝ := 0

def Boundary.max_y (b : Boundary) : ℝ := b.height

/-- `Boundary.is_within_bounds`. -/
def Boundary.is_within_bounds (b : Boundary) (position : Vector2D) : Prop :=
  b.min_x ≤ position.x ∧ position.x ≤ b.max_x ∧
  b.min_y ≤ position.y ∧ position.y ≤ b.max_y

/-- `Boundary.is_near_boundary`: per-axis distance test against each wall. -/
def Boundary.is_near_boundary (b : Boundary) (position : Vector2D) (threshold : ℝ) : Prop :=
  position.x ≤ b.min_x + threshold ∨ position.x ≥ b.max_x - threshold ∨
  position.y ≤ b.min_y + threshold ∨ position.y ≥ b.max_y - threshold

/-- `Boundary.get_tangent_at_point`: unit tangent of the nearest wall,
vertical for the left/right walls, horizontal for the bottom/top walls.
`min` associates the way Python's four-argument `min` does. -/
noncomputable def Boundary.get_tangent_at_point (b : Boundary) (position : Vector2D) : Vector2D :=
  let dist_left := |position.x - b.min_x|
  let dist_right := |position.x - b.max_x|
  let dist_bottom := |position.y - b.min_y|
  let dist_top := |position.y - b.max_y|
  let min_dist := min (min (min dist_left dist_right) dist_bottom) dist_top
  if min_dist = dist_left ∨ min_dist = dist_right then ⟨0, 1⟩ else ⟨1, 0⟩

/-- `Boundary.get_normal_at_point`: inward unit normal of the nearest wall. -/
noncomputable def Boundary.get_normal_at_point (b : Boundary) (position : Vector2D) : Vector2D :=
  let dist_left := |position.x - b.min_x|
  let dist_right := |position.x - b.max_x|
  let dist_bottom := |position.y - b.min_y|
  let dist_top := |position.y - b.max_y|
  let min_dist := min (min (min dist_left dist_right) dist_bottom) dist_top
  if min_dist = dist_left then ⟨1, 0⟩
  else if min_dist = dist_right then ⟨-1, 0⟩
  else if min_dist = dist_bottom then ⟨0, 1⟩
  else ⟨0, -1⟩

/-- `Boundary.clamp_position`. -/
noncomputable def Boundary.clamp_position (b : Boundary) (position : Vector2D) : Vector2D :=
  ⟨max b.min_x (min position.x b.max_x), max b.min_y (min position.y b.max_y)⟩

theorem magnitude_mk_zero_one : (Vector2D.mk 0 1).magnitude = 1 := by
  simp [Vector2D.magnitude]

theorem magnitude_mk_one_zero : (Vector2D.mk 1 0).magnitude = 1 := by
  simp [Vector2D.magnitude]

theorem magnitude_mk_neg_one_zero : (Vector2D.mk (-1) 0).magnitude = 1 := by
  simp [Vector2D.magnitude]

theorem magnitude_mk_zero_neg_one : (Vector2D.mk 0 (-1)).magnitude = 1 := by
  simp [Vector2D.magnitude]

/-- Claim C9: for every boundary and every position, the wall tangent and
the wall normal are unit vectors with dot product exactly zero; in both
functions the left and right walls take precedence over the bottom and top
walls, so whenever the minimal wall distance is attained at the left or
right wall (ties included) the tangent is vertical and the normal is
horizontal. -/
theorem C9_tangent_normal_perpendicular_unit (b : Boundary) (p : Vector2D) :
    (b.get_tangent_at_point p).magnitude = 1 ∧
    (b.get_normal_at_point p).magnitude = 1 ∧
    (b.get_tangent_at_point p).dot (b.get_normal_at_point p) = 0 ∧
    (min (min (min |p.x - b.min_x| |p.x - b.max_x|) |p.y - b.min_y|) |p.y - b.max_y| =
        |p.x - b.min_x| ∨
     min (min (min |p.x - b.min_x| |p.x - b.max_x|) |p.y - b.min_y|) |p.y - b.max_y| =
        |p.x - b.max_x| →
      b.get_tangent_at_point p = ⟨0, 1⟩ ∧
      (b.get_normal_at_point p = ⟨1, 0⟩ ∨ b.get_normal_at_point p = ⟨-1, 0⟩)) := by
  unfold Boundary.get_tangent_at_point Boundary.get_normal_at_point
  simp only
  split_ifs with h1 h2 h3 h4 h5 h6 h7 h8 <;>
    simp_all [Vector2D.dot, magnitude_mk_zero_one, magnitude_mk_one_zero,
      magnitude_mk_neg_one_zero, magnitude_mk_zero_neg_one]

/-- Witness for C9 at the concrete boundary 100 x 100 and position (5, 50):
the minimal wall distance is attained at the left wall, so the tangent is
(0, 1) and the normal is (1, 0). -/
theorem C9_witness :
    ((Boundary.mk 100 100).get_tangent_at_point ⟨5, 50⟩).magnitude = 1 ∧
    ((Boundary.mk 100 100).get_normal_at_point ⟨5, 50⟩).magnitude = 1 ∧
    ((Boundary.mk 100 100).get_tangent_at_point ⟨5, 50⟩).dot
      ((Boundary.mk 100 100).get_normal_at_point ⟨5, 50⟩) = 0 ∧
    (Boundary.mk 100 100).get_tangent_at_point ⟨5, 50⟩ = ⟨0, 1⟩ ∧
    ((Boundary.mk 100 100).get_normal_at_point ⟨5, 50⟩ = ⟨1, 0⟩ ∨
     (Boundary.mk 100 100).get_normal_at_point ⟨5, 50⟩ = ⟨-1, 0⟩) := by
  have h := C9_tangent_normal_perpendicular_unit ⟨100, 100⟩ ⟨5, 50⟩
  have hmin : min (min (min |(5:ℝ) - (Boundary.mk 100 100).min_x|
        |(5:ℝ) - (Boundary.mk 100 100).max_x|) |(50:ℝ) - (Boundary.mk 100 100).min_y|)
        |(50:ℝ) - (Boundary.mk 100 100).max_y| = |(5:ℝ) - (Boundary.mk 100 100).min_x| := by
    simp [Boundary.min_x, Boundary.max_x, Boundary.min_y, Boundary.max_y]
    norm_num [abs_of_nonneg, abs_of_nonpos]
  exact ⟨h.1, h.2.1, h.2.2.1, h.2.2.2 (Or.inl hmin)⟩

/-- The value stored in the Python attribute `Agent.velocity`.  It is a
`Vector2D` except after the stop transition in `Agent.energy_update`, which
assigns the plain scalar `0`. -/
inductive PyVel where
  | vec (v : Vector2D)
  | scalarZero

/-- The magnitude of the value in the `velocity` field when it is a vector,
and 0 for the scalar `0` (used only to state magnitude comparisons). -/
noncomputable def PyVel.magValue : PyVel → ℝ
  | .vec v => v.magnitude
  | .scalarZero => 0

/-- `Agent` from `agent.py`. -/
structure Agent where
  position : Vector2D
  velocity : PyVel
  energy : ℝ
  radius : ℝ
  nrg_decay : ℝ
  nrg_gain : ℝ
  is_moving : Bool
  movement_time : ℝ
  base_speed : ℝ
  max_energy : ℝ

/-- `Agent.__init__`: copies position and velocity, starts moving, records
the initial speed as `base_speed` and the initial energy as `max_energy`. -/
noncomputable def Agent.init (position velocity : Vector2D) (energy agent_radius
    nrg_decay nrg_gain : ℝ) : Agent :=
  { position := position.copy
    velocity := .vec velocity.copy
    energy := energy
    radius := agent_radius
    nrg_decay := nrg_decay
    nrg_gain := nrg_gain
    is_moving := true
    movement_time := 0
    base_speed := velocity.magnitude
    max_energy := energy }

/-- `Agent.energy_update`.  `u` is the draw of `np.random.uniform(0, 1)` and
`angle` the draw of `random.uniform(0, 2*pi)` consumed by the resting branch.
While moving, the scalar-zero velocity has no `__mul__` accepting a float nor
a `magnitude` attribute, so that (unreachable) path is `none`. -/
noncomputable def Agent.energy_update (a : Agent) (delta_time u angle : ℝ) : Option Agent :=
  if a.is_moving then
    match a.velocity with
    | .vec v =>
      let e := a.energy * Real.exp (-(a.nrg_decay * delta_time))
      let v2 := v.mul e
      if v2.magnitude < 1 then
        some { a with energy := e, velocity := .scalarZero, is_moving := false }
      else
        some { a with energy := e, velocity := .vec v2 }
    | .scalarZero => none
  else
    let e2 := min (a.energy + a.nrg_gain * a.max_energy) a.max_energy
    if e2 = a.max_energy ∧ u < 3 / 10 then
      some { a with energy := e2
                    is_moving := true
                    velocity := .vec ⟨Real.cos angle * a.base_speed,
                                      Real.sin angle * a.base_speed⟩ }
    else
      some { a with energy := e2 }

/-- `Agent.update`: position integration (with the two Gaussian draws `nx`,
`ny` when `std_dev > 0`), `movement_time` accumulation, then the energy
update, which runs regardless of the movement state. -/
noncomputable def Agent.update (a : Agent) (delta_time std_dev nx ny u angle : ℝ) :
    Option Agent :=
  if a.is_moving then
    match a.velocity with
    | .vec v =>
      let a1 :=
        if std_dev > 0 then
          { a with position := a.position.add ((v.copy.add_randomness nx ny).mul delta_time),
                   movement_time := a.movement_time + delta_time }
        else
          { a with position := a.position.add (v.mul delta_time),
                   movement_time := a.movement_time + delta_time }
      a1.energy_update delta_time u angle
    | .scalarZero => none
  else
    a.energy_update delta_time u angle

/-- `Agent.can_move`. -/
def Agent.can_move (a : Agent) : Bool := a.is_moving

/-- `Agent.detect_collision`. -/
def Agent.detect_collision (a other_agent : Agent) (interaction_radius : ℝ) : Prop :=
  a.position.distance_to other_agent.position ≤ interaction_radius

/-- `Agent.interact_with_agent`: redirect along the tangent of the separation
direction, keeping the current speed. -/
noncomputable def Agent.interact_with_agent (a other_agent : Agent) : Option Agent :=
  if a.is_moving then
    let direction := a.position.sub other_agent.position
    if direction.magnitude = 0 then some a
    else
      let tangent := (direction.rotate (Real.pi / 2)).normalize
      match a.velocity with
      | .vec v =>
        let speed := v.magnitude
        if speed > 0 then some { a with velocity := .vec (tangent.mul speed) }
        else some a
      | .scalarZero => none
  else some a

/-- `Agent.interact_with_boundary`: if near a wall (buffer 15), follow the
wall tangent (flipped to keep a nonnegative dot product with the current
velocity) at the current speed, and push the position 2 units inward. -/
noncomputable def Agent.interact_with_boundary (a : Agent) (boundary : Boundary) :
    Option Agent :=
  if a.is_moving then
    if boundary.is_near_boundary a.position (a.radius + 15) then
      let tangent := boundary.get_tangent_at_point a.position
      match a.velocity with
      | .vec v =>
        let tangent2 := if v.dot tangent < 0 then tangent.mul (-1) else tangent
        some { a with velocity := .vec (tangent2.mul v.magnitude)
                      position := a.position.add
                        ((boundary.get_normal_at_point a.position).mul 2) }
      | .scalarZero => none
    else some a
  else some a

theorem Vector2D.sub_self_eq_zero (v : Vector2D) : v.sub v = ⟨0, 0⟩ := by
  simp [Vector2D.sub]

theorem magnitude_mk_zero : (Vector2D.mk 0 0).magnitude = 0 :=
  (Vector2D.magnitude_eq_zero_iff _).mpr rfl

theorem Vector2D.normalize_mul_pos (v : Vector2D) (c : ℝ) (hc : 0 < c) :
    (v.mul c).normalize = v.normalize := by
  by_cases h : v.magnitude = 0
  · have hv : v = ⟨0, 0⟩ := (v.magnitude_eq_zero_iff).mp h
    subst hv
    have : (Vector2D.mk 0 0).mul c = ⟨0, 0⟩ := by simp [Vector2D.mul]
    rw [this]
  · have hm : 0 < v.magnitude := lt_of_le_of_ne v.magnitude_nonneg (Ne.symm h)
    have hmag : (v.mul c).magnitude = c * v.magnitude := by
      rw [Vector2D.magnitude_mul, abs_of_pos hc]
    have h2 : (v.mul c).magnitude ≠ 0 := by
      rw [hmag]
      positivity
    unfold Vector2D.normalize
    rw [if_neg h2, if_neg h, hmag]
    simp only [Vector2D.mul]
    congr 1
    · rw [mul_comm v.x c, mul_div_mul_left _ _ (ne_of_gt hc)]
    · rw [mul_comm v.y c, mul_div_mul_left _ _ (ne_of_gt hc)]

/-- Claim C2: for a Moving agent with vector velocity `v`, one energy update
first multiplies the energy by `exp(-nrg_decay * delta_time)`, then scales
both velocity components by the new energy value (leaving the direction
unchanged when the energy is positive); if the rescaled velocity magnitude is
below 1 the agent transitions to Resting with its velocity zeroed (the
scalar `0`), and otherwise it stays Moving with the rescaled velocity. -/
theorem C2_moving_energy_update (a : Agent) (v : Vector2D) (dt u angle : ℝ)
    (hm : a.is_moving = true) (hv : a.velocity = .vec v) :
    ∃ a', a.energy_update dt u angle = some a' ∧
      a'.energy = a.energy * Real.exp (-(a.nrg_decay * dt)) ∧
      ((v.mul (a.energy * Real.exp (-(a.nrg_decay * dt)))).magnitude < 1 →
        a'.is_moving = false ∧ a'.velocity = PyVel.scalarZero) ∧
      (¬ (v.mul (a.energy * Real.exp (-(a.nrg_decay * dt)))).magnitude < 1 →
        a'.is_moving = true ∧
        a'.velocity = PyVel.vec (v.mul (a.energy * Real.exp (-(a.nrg_decay * dt)))) ∧
        (v.mul (a.energy * Real.exp (-(a.nrg_decay * dt)))).x =
          v.x * (a.energy * Real.exp (-(a.nrg_decay * dt))) ∧
        (v.mul (a.energy * Real.exp (-(a.nrg_decay * dt)))).y =
          v.y * (a.energy * Real.exp (-(a.nrg_decay * dt)))) ∧
      (0 < a.energy →
        (v.mul (a.energy * Real.exp (-(a.nrg_decay * dt)))).normalize = v.normalize) := by
  unfold Agent.energy_update
  rw [hv]
  simp only [hm, if_true]
  by_cases hlt : (v.mul (a.energy * Real.exp (-(a.nrg_decay * dt)))).magnitude < 1
  · rw [if_pos hlt]
    refine ⟨_, rfl, rfl, fun _ => ⟨rfl, rfl⟩, fun hcon => absurd hlt hcon, ?_⟩
    intro he
    exact v.normalize_mul_pos _ (mul_pos he (Real.exp_pos _))
  · rw [if_neg hlt]
    refine ⟨_, rfl, rfl, fun hcon => absurd hcon hlt, fun _ => ⟨rfl, rfl, rfl, rfl⟩, ?_⟩
    intro he
    exact v.normalize_mul_pos _ (mul_pos he (Real.exp_pos _))

/-- Concrete Moving agent used to witness C2. -/
noncomputable def c2Agent : Agent :=
  { position := ⟨0, 0⟩
    velocity := .vec ⟨10, 0⟩
    energy := 1
    radius := 5
    nrg_decay := 1 / 10
    nrg_gain := 1 / 100
    is_moving := true
    movement_time := 0
    base_speed := 10
    max_energy := 1 }

/-- Witness for C2 at a concrete Moving agent. -/
theorem C2_witness :
    ∃ a', c2Agent.energy_update 1 0 0 = some a' ∧
      a'.energy = c2Agent.energy * Real.exp (-(c2Agent.nrg_decay * 1)) ∧
      (((Vector2D.mk 10 0).mul (c2Agent.energy *
          Real.exp (-(c2Agent.nrg_decay * 1)))).magnitude < 1 →
        a'.is_moving = false ∧ a'.velocity = PyVel.scalarZero) ∧
      (¬ ((Vector2D.mk 10 0).mul (c2Agent.energy *
          Real.exp (-(c2Agent.nrg_decay * 1)))).magnitude < 1 →
        a'.is_moving = true ∧
        a'.velocity = PyVel.vec ((Vector2D.mk 10 0).mul (c2Agent.energy *
          Real.exp (-(c2Agent.nrg_decay * 1)))) ∧
        ((Vector2D.mk 10 0).mul (c2Agent.energy *
          Real.exp (-(c2Agent.nrg_decay * 1)))).x =
          (Vector2D.mk 10 0).x * (c2Agent.energy * Real.exp (-(c2Agent.nrg_decay * 1))) ∧
        ((Vector2D.mk 10 0).mul (c2Agent.energy *
          Real.exp (-(c2Agent.nrg_decay * 1)))).y =
          (Vector2D.mk 10 0).y * (c2Agent.energy * Real.exp (-(c2Agent.nrg_decay * 1)))) ∧
      (0 < c2Agent.energy →
        ((Vector2D.mk 10 0).mul (c2Agent.energy *
          Real.exp (-(c2Agent.nrg_decay * 1)))).normalize = (Vector2D.mk 10 0).normalize) :=
  C2_moving_energy_update c2Agent ⟨10, 0⟩ 1 0 0 rfl rfl

/-- Claim C7: coincident agents always count as colliding for any nonnegative
interaction radius, yet `interact_with_agent` leaves both participants
entirely unchanged; it is likewise a no-op whenever the caller is Resting. -/
theorem C7_coincident_interaction_noop (a b : Agent) (r : ℝ)
    (hpos : a.position = b.position) (hr : 0 ≤ r) :
    a.detect_collision b r ∧
    a.interact_with_agent b = some a ∧
    b.interact_with_agent a = some b ∧
    (∀ c d : Agent, c.is_moving = false → c.interact_with_agent d = some c) := by
  have hdist : a.position.distance_to b.position = 0 := by
    rw [hpos]
    unfold Vector2D.distance_to
    rw [Vector2D.sub_self_eq_zero, magnitude_mk_zero]
  have hdist2 : b.position.distance_to a.position = 0 := by
    rw [hpos]
    unfold Vector2D.distance_to
    rw [Vector2D.sub_self_eq_zero, magnitude_mk_zero]
  refine ⟨?_, ?_, ?_, ?_⟩
  · unfold Agent.detect_collision
    rw [hdist]
    exact hr
  · unfold Agent.interact_with_agent
    by_cases hm : a.is_moving
    · simp only [hm, if_true]
      rw [hpos, Vector2D.sub_self_eq_zero, if_pos magnitude_mk_zero]
    · simp only [hm]
      simp
  · unfold Agent.interact_with_agent
    by_cases hm : b.is_moving
    · simp only [hm, if_true]
      rw [hpos, Vector2D.sub_self_eq_zero, if_pos magnitude_mk_zero]
    · simp only [hm]
      simp
  · intro c d hc
    unfold Agent.interact_with_agent
    simp [hc]

/-- Witness for C7: the two-coincident-agents scenario at (0, 0) with
interaction radius 10. -/
theorem C7_witness :
    c2Agent.detect_collision c2Agent 10 ∧
    c2Agent.interact_with_agent c2Agent = some c2Agent ∧
    c2Agent.interact_with_agent c2Agent = some c2Agent ∧
    (∀ c d : Agent, c.is_moving = false → c.interact_with_agent d = some c) :=
  C7_coincident_interaction_noop c2Agent c2Agent 10 rfl (by norm_num)

/-- The Moving agent of the boundary scenario: position (5, 50), velocity
(-10, 0), radius 5. -/
noncomputable def c8Agent : Agent :=
  { position := ⟨5, 50⟩
    velocity := .vec ⟨-10, 0⟩
    energy := 10
    radius := 5
    nrg_decay := 1 / 10
    nrg_gain := 1 / 100
    is_moving := true
    movement_time := 0
    base_speed := 10
    max_energy := 10 }

/-- Claim C8: in the 100 x 100 boundary, the agent at (5, 50) with velocity
(-10, 0) and radius 5 is near the left wall (5 <= 5 + 15), the tangent (0, 1)
is kept unflipped because the dot product 0 is not < 0, the velocity becomes
(0, 10) (speed 10 preserved), and the position is pushed by the inward normal
(1, 0) times 2 to (7, 50). -/
theorem C8_boundary_scenario :
    c8Agent.interact_with_boundary ⟨100, 100⟩ =
      some { c8Agent with velocity := PyVel.vec ⟨0, 10⟩
                          position := ⟨7, 50⟩ } := by
  have hmag : (Vector2D.mk (-10) 0).magnitude = 10 := by
    unfold Vector2D.magnitude
    rw [show ((-10 : ℝ)) ^ 2 + (0 : ℝ) ^ 2 = 10 ^ 2 by norm_num,
        Real.sqrt_sq (by norm_num)]
  have htan : (Boundary.mk 100 100).get_tangent_at_point ⟨5, 50⟩ = ⟨0, 1⟩ := by
    unfold Boundary.get_tangent_at_point
    simp only [Boundary.min_x, Boundary.max_x, Boundary.min_y, Boundary.max_y]
    rw [if_pos]
    left
    norm_num
  have hnorm2 : (Boundary.mk 100 100).get_normal_at_point ⟨5, 50⟩ = ⟨1, 0⟩ := by
    unfold Boundary.get_normal_at_point
    simp only [Boundary.min_x, Boundary.max_x, Boundary.min_y, Boundary.max_y]
    rw [if_pos]
    norm_num
  have hnear : (Boundary.mk 100 100).is_near_boundary ⟨5, 50⟩ (c8Agent.radius + 15) := by
    left
    show (5 : ℝ) ≤ (Boundary.mk 100 100).min_x + (c8Agent.radius + 15)
    unfold Boundary.min_x c8Agent
    norm_num
  unfold Agent.interact_with_boundary
  rw [if_pos (show c8Agent.is_moving = true from rfl),
      show c8Agent.position = (⟨5, 50⟩ : Vector2D) from rfl, if_pos hnear]
  have hv : c8Agent.velocity = .vec ⟨-10, 0⟩ := rfl
  rw [hv, htan, hnorm2]
  have hdot : ¬ (Vector2D.mk (-10) 0).dot ⟨0, 1⟩ < 0 := by
    unfold Vector2D.dot
    norm_num
  dsimp only
  rw [if_neg hdot, hmag]
  have h1 : (Vector2D.mk 0 1).mul 10 = ⟨0, 10⟩ := by
    unfold Vector2D.mul
    norm_num
  have h2 : (Vector2D.mk 5 50).add ((Vector2D.mk 1 0).mul 2) = ⟨7, 50⟩ := by
    unfold Vector2D.add Vector2D.mul
    norm_num
  rw [h1, h2]

theorem energy_update_bounds (a : Agent) (dt u angle : ℝ) (a' : Agent)
    (he0 : 0 ≤ a.energy) (he1 : a.energy ≤ a.max_energy)
    (hd : 0 ≤ a.nrg_decay) (hg : 0 ≤ a.nrg_gain) (hdt : 0 ≤ dt)
    (h : a.energy_update dt u angle = some a') :
    0 ≤ a'.energy ∧ a'.energy ≤ a'.max_energy ∧ a'.max_energy = a.max_energy := by
  have hmax0 : 0 ≤ a.max_energy := he0.trans he1
  unfold Agent.energy_update at h
  by_cases hm : a.is_moving = true
  · rw [if_pos hm] at h
    cases hv : a.velocity with
    | vec v =>
      rw [hv] at h
      dsimp only at h
      have hq1 : Real.exp (-(a.nrg_decay * dt)) ≤ 1 :=
        Real.exp_le_one_iff.mpr (neg_nonpos.mpr (mul_nonneg hd hdt))
      have hq0 : 0 ≤ Real.exp (-(a.nrg_decay * dt)) := (Real.exp_pos _).le
      have he' : 0 ≤ a.energy * Real.exp (-(a.nrg_decay * dt)) := mul_nonneg he0 hq0
      have hle : a.energy * Real.exp (-(a.nrg_decay * dt)) ≤ a.max_energy :=
        (mul_le_of_le_one_right he0 hq1).trans he1
      split_ifs at h <;> (cases h; exact ⟨he', hle, rfl⟩)
    | scalarZero =>
      rw [hv] at h
      dsimp only at h
      cases h
  · rw [if_neg hm] at h
    dsimp only at h
    have h20 : 0 ≤ min (a.energy + a.nrg_gain * a.max_energy) a.max_energy :=
      le_min (by nlinarith) hmax0
    have h2le : min (a.energy + a.nrg_gain * a.max_energy) a.max_energy ≤ a.max_energy :=
      min_le_right _ _
    split_ifs at h <;> (cases h; exact ⟨h20, h2le, rfl⟩)

theorem energy_update_resting_mono (a : Agent) (dt u angle : ℝ) (a' : Agent)
    (hm : a.is_moving = false) (he0 : 0 ≤ a.energy) (he1 : a.energy ≤ a.max_energy)
    (hg : 0 ≤ a.nrg_gain)
    (h : a.energy_update dt u angle = some a') :
    a.energy ≤ a'.energy ∧ a'.energy ≤ a.max_energy := by
  have hmax0 : 0 ≤ a.max_energy := he0.trans he1
  unfold Agent.energy_update at h
  rw [if_neg (by rw [hm]; exact Bool.false_ne_true)] at h
  dsimp only at h
  have hmono : a.energy ≤ min (a.energy + a.nrg_gain * a.max_energy) a.max_energy :=
    le_min (by nlinarith) he1
  have h2le : min (a.energy + a.nrg_gain * a.max_energy) a.max_energy ≤ a.max_energy :=
    min_le_right _ _
  split_ifs at h <;> (cases h; exact ⟨hmono, h2le⟩)

theorem update_bounds (a : Agent) (dt std_dev nx ny u angle : ℝ) (a' : Agent)
    (he0 : 0 ≤ a.energy) (he1 : a.energy ≤ a.max_energy)
    (hd : 0 ≤ a.nrg_decay) (hg : 0 ≤ a.nrg_gain) (hdt : 0 ≤ dt)
    (h : a.update dt std_dev nx ny u angle = some a') :
    0 ≤ a'.energy ∧ a'.energy ≤ a'.max_energy ∧ a'.max_energy = a.max_energy := by
  unfold Agent.update at h
  by_cases hm : a.is_moving = true
  · rw [if_pos hm] at h
    cases hv : a.velocity with
    | vec v =>
      rw [hv] at h
      dsimp only at h
      split_ifs at h with hsd
      · exact energy_update_bounds
          { a with position := a.position.add ((v.copy.add_randomness nx ny).mul dt)
                   velocity := PyVel.vec v
                   movement_time := a.movement_time + dt }
          dt u angle a' he0 he1 hd hg hdt h
      · exact energy_update_bounds
          { a with position := a.position.add (v.mul dt)
                   velocity := PyVel.vec v
                   movement_time := a.movement_time + dt }
          dt u angle a' he0 he1 hd hg hdt h
    | scalarZero =>
      rw [hv] at h
      dsimp only at h
      cases h
  · rw [if_neg hm] at h
    exact energy_update_bounds a dt u angle a' he0 he1 hd hg hdt h

theorem interact_with_agent_fields (a b a' : Agent)
    (h : a.interact_with_agent b = some a') :
    a'.energy = a.energy ∧ a'.max_energy = a.max_energy := by
  unfold Agent.interact_with_agent at h
  by_cases hm : a.is_moving = true
  · rw [if_pos hm] at h
    by_cases h0 : (a.position.sub b.position).magnitude = 0
    · rw [if_pos h0] at h
      cases h
      exact ⟨rfl, rfl⟩
    · rw [if_neg h0] at h
      cases hv : a.velocity with
      | vec v =>
        rw [hv] at h
        dsimp only at h
        split_ifs at h <;> (cases h; exact ⟨rfl, rfl⟩)
      | scalarZero =>
        rw [hv] at h
        dsimp only at h
        cases h
  · rw [if_neg hm] at h
    cases h
    exact ⟨rfl, rfl⟩

theorem interact_with_boundary_fields (a : Agent) (b : Boundary) (a' : Agent)
    (h : a.interact_with_boundary b = some a') :
    a'.energy = a.energy ∧ a'.max_energy = a.max_energy := by
  unfold Agent.interact_with_boundary at h
  by_cases hm : a.is_moving = true
  · rw [if_pos hm] at h
    by_cases hnear : b.is_near_boundary a.position (a.radius + 15)
    · rw [if_pos hnear] at h
      cases hv : a.velocity with
      | vec v =>
        rw [hv] at h
        dsimp only at h
        cases h
        exact ⟨rfl, rfl⟩
      | scalarZero =>
        rw [hv] at h
        dsimp only at h
        cases h
    · rw [if_neg hnear] at h
      cases h
      exact ⟨rfl, rfl⟩
  · rw [if_neg hm] at h
    cases h
    exact ⟨rfl, rfl⟩

/-- Claim C3: with construction energy >= 0 and nonnegative rates, every
agent operation keeps `0 <= energy <= max_energy` (time steps are
nonnegative), and for a Resting agent an energy update is non-decreasing and
capped by `max_energy`. -/
theorem C3_energy_invariant :
    (∀ p v e r d g, 0 ≤ e → (Agent.init p v e r d g).energy = e ∧
        (Agent.init p v e r d g).max_energy = e ∧
        0 ≤ (Agent.init p v e r d g).energy ∧
        (Agent.init p v e r d g).energy ≤ (Agent.init p v e r d g).max_energy) ∧
    (∀ a : Agent, ∀ dt u ang : ℝ, ∀ a' : Agent,
        0 ≤ a.energy → a.energy ≤ a.max_energy → 0 ≤ a.nrg_decay → 0 ≤ a.nrg_gain →
        0 ≤ dt → a.energy_update dt u ang = some a' →
        0 ≤ a'.energy ∧ a'.energy ≤ a'.max_energy) ∧
    (∀ a : Agent, ∀ dt sd nx ny u ang : ℝ, ∀ a' : Agent,
        0 ≤ a.energy → a.energy ≤ a.max_energy → 0 ≤ a.nrg_decay → 0 ≤ a.nrg_gain →
        0 ≤ dt → a.update dt sd nx ny u ang = some a' →
        0 ≤ a'.energy ∧ a'.energy ≤ a'.max_energy) ∧
    (∀ a b : Agent, ∀ a' : Agent, 0 ≤ a.energy → a.energy ≤ a.max_energy →
        a.interact_with_agent b = some a' →
        0 ≤ a'.energy ∧ a'.energy ≤ a'.max_energy) ∧
    (∀ a : Agent, ∀ b : Boundary, ∀ a' : Agent, 0 ≤ a.energy → a.energy ≤ a.max_energy →
        a.interact_with_boundary b = some a' →
        0 ≤ a'.energy ∧ a'.energy ≤ a'.max_energy) ∧
    (∀ a : Agent, ∀ dt u ang : ℝ, ∀ a' : Agent,
        a.is_moving = false → 0 ≤ a.energy → a.energy ≤ a.max_energy → 0 ≤ a.nrg_gain →
        a.energy_update dt u ang = some a' →
        a.energy ≤ a'.energy ∧ a'.energy ≤ a.max_energy) := by
  refine ⟨?_, ?_, ?_, ?_, ?_, ?_⟩
  · intro p v e r d g he
    exact ⟨rfl, rfl, he, le_refl _⟩
  · intro a dt u ang a' he0 he1 hd hg hdt h
    obtain ⟨x, y, _⟩ := energy_update_bounds a dt u ang a' he0 he1 hd hg hdt h
    exact ⟨x, y⟩
  · intro a dt sd nx ny u ang a' he0 he1 hd hg hdt h
    obtain ⟨x, y, _⟩ := update_bounds a dt sd nx ny u ang a' he0 he1 hd hg hdt h
    exact ⟨x, y⟩
  · intro a b a' he0 he1 h
    obtain ⟨hx, hy⟩ := interact_with_agent_fields a b a' h
    rw [hx, hy]
    exact ⟨he0, he1⟩
  · intro a b a' he0 he1 h
    obtain ⟨hx, hy⟩ := interact_with_boundary_fields a b a' h
    rw [hx, hy]
    exact ⟨he0, he1⟩
  · intro a dt u ang a' hm he0 he1 hg h
    exact energy_update_resting_mono a dt u ang a' hm he0 he1 hg h

/-- Concrete Resting agent used to witness C3. -/
noncomputable def c3Agent : Agent :=
  { position := ⟨0, 0⟩
    velocity := .scalarZero
    energy := 1 / 2
    radius := 5
    nrg_decay := 1 / 10
    nrg_gain := 1 / 100
    is_moving := false
    movement_time := 0
    base_speed := 10
    max_energy := 1 }

/-- Witness for C3: one resting energy update of the concrete agent is
non-decreasing and stays below `max_energy`. -/
theorem C3_witness :
    ∃ a', c3Agent.energy_update 1 1 0 = some a' ∧
      c3Agent.energy ≤ a'.energy ∧ a'.energy ≤ c3Agent.max_energy := by
  have h : c3Agent.energy_update 1 1 0 =
      some { c3Agent with
             energy := min (c3Agent.energy + c3Agent.nrg_gain * c3Agent.max_energy)
                           c3Agent.max_energy } := by
    unfold Agent.energy_update
    rw [if_neg (show ¬ (c3Agent.is_moving = true) from Bool.false_ne_true)]
    dsimp only
    rw [if_neg (fun hc => absurd hc.2 (by norm_num))]
  exact ⟨_, h, (C3_energy_invariant.2.2.2.2.2 c3Agent 1 1 0 _ rfl (by norm_num [c3Agent])
    (by norm_num [c3Agent]) (by norm_num [c3Agent]) h)⟩

/-- One bundle of random draws consumed by one `Agent.update` call: the two
Gaussian perturbations, the `np.random.uniform(0, 1)` draw, and the
`random.uniform(0, 2*pi)` angle draw. -/
structure Draw where
  nx : ℝ
  ny : ℝ
  u : ℝ
  angle : ℝ

/-- `Simulation` from `simulation.py`. -/
structure Simulation where
  boundary : Boundary
  agents : List Agent
  interaction_radius : ℝ
  time_step : ℝ
  random_std_dev : ℝ
  current_time : ℝ

/-- Phase (a) of `Simulation.update`: each agent with `can_move()` is
stepped; Resting agents are skipped entirely. -/
noncomputable def agentSelfUpdatePhase (time_step std_dev : ℝ) (rng : ℕ → Draw) :
    List Agent → ℕ → Option (List Agent)
  | [], _ => some []
  | a :: rest, i => do
    let a' ← if a.can_move then
        a.update time_step std_dev (rng i).nx (rng i).ny (rng i).u (rng i).angle
      else some a
    let rest' ← agentSelfUpdatePhase time_step std_dev rng rest (i + 1)
    pure (a' :: rest')

/-- The ordered index pairs (i, j) with i < j visited by the nested loops of
`Simulation.check_interactions`. -/
def pairIndices (n : ℕ) : List (ℕ × ℕ) :=
  (List.range n).flatMap fun i =>
    ((List.range n).filter fun j => decide (i < j)).map fun j => (i, j)

/-- The body of one pairwise iteration of `Simulation.check_interactions`:
the second agent reacts to the already-updated first agent, matching the
in-place sequential mutation of the Python loop. -/
noncomputable def interactPair (interaction_radius : ℝ) (agents : List Agent)
    (i j : ℕ) : Option (List Agent) :=
  match agents[i]?, agents[j]? with
  | some agent1, some agent2 =>
    if ¬ agent1.can_move ∧ ¬ agent2.can_move then some agents
    else if agent1.detect_collision agent2 interaction_radius then do
      let a1 ← if agent1.can_move then agent1.interact_with_agent agent2 else some agent1
      let a2 ← if agent2.can_move then agent2.interact_with_agent a1 else some agent2
      some ((agents.set i a1).set j a2)
    else some agents
  | _, _ => some agents

/-- `Simulation.check_interactions`. -/
noncomputable def check_interactions (interaction_radius : ℝ) (agents : List Agent) :
    Option (List Agent) :=
  (pairIndices agents.length).foldlM
    (fun acc p => interactPair interaction_radius acc p.1 p.2) agents

/-- `Simulation.check_boundary_collisions`. -/
noncomputable def check_boundary_collisions (boundary : Boundary) :
    List Agent → Option (List Agent)
  | [] => some []
  | a :: rest => do
    let a' ← if a.can_move then a.interact_with_boundary boundary else some a
    let rest' ← check_boundary_collisions boundary rest
    pure (a' :: rest')

/-- `Simulation.update`: agent self-updates, pairwise interactions, boundary
interactions, then the time advance. -/
noncomputable def Simulation.update (s : Simulation) (rng : ℕ → Draw) :
    Option Simulation := do
  let agents1 ← agentSelfUpdatePhase s.time_step s.random_std_dev rng s.agents 0
  let agents2 ← check_interactions s.interaction_radius agents1
  let agents3 ← check_boundary_collisions s.boundary agents2
  pure { s with agents := agents3
                current_time := s.current_time + s.time_step }

/-- Repeated `Simulation.update` calls, as driven by `Simulation.run`;
`rng n` supplies the draws of step `n`. -/
noncomputable def Simulation.iterate (s : Simulation) (rng : ℕ → ℕ → Draw) :
    ℕ → Option Simulation
  | 0 => some s
  | n + 1 => (s.iterate rng n).bind fun s' => s'.update (rng n)

/-- One row of the list built by `Simulation.get_agent_states`. -/
structure AgentStateRow where
  id : ℕ
  px : ℝ
  py : ℝ
  vx : ℝ
  vy : ℝ
  energy : ℝ
  is_moving : Bool
  movement_time : ℝ

/-- The loop of `Simulation.get_agent_states`: reading `velocity.x` of an
agent whose `velocity` field holds the scalar `0` raises `AttributeError`. -/
def agentStatesLoop : ℕ → List Agent → Option (List AgentStateRow)
  | _, [] => some []
  | i, a :: rest =>
    match a.velocity with
    | .vec v =>
      (agentStatesLoop (i + 1) rest).map
        (fun l => ⟨i, a.position.x, a.position.y, v.x, v.y, a.energy, a.is_moving,
                   a.movement_time⟩ :: l)
    | .scalarZero => none

/-- `Simulation.get_agent_states`. -/
def Simulation.get_agent_states (s : Simulation) : Option (List AgentStateRow) :=
  agentStatesLoop 0 s.agents

theorem interact_with_agent_resting (a b : Agent) (hm : a.is_moving = false) :
    a.interact_with_agent b = some a := by
  unfold Agent.interact_with_agent
  rw [if_neg (by rw [hm]; exact Bool.false_ne_true)]

theorem interact_with_boundary_resting (a : Agent) (b : Boundary)
    (hm : a.is_moving = false) :
    a.interact_with_boundary b = some a := by
  unfold Agent.interact_with_boundary
  rw [if_neg (by rw [hm]; exact Bool.false_ne_true)]

theorem energy_update_resting_some (a : Agent) (dt u angle : ℝ)
    (hm : a.is_moving = false) :
    ∃ a', a.energy_update dt u angle = some a' := by
  unfold Agent.energy_update
  rw [if_neg (by rw [hm]; exact Bool.false_ne_true)]
  dsimp only
  split_ifs <;> exact ⟨_, rfl⟩

theorem update_resting_some (a : Agent) (dt std_dev nx ny u angle : ℝ)
    (hm : a.is_moving = false) :
    ∃ a', a.update dt std_dev nx ny u angle = some a' := by
  unfold Agent.update
  rw [if_neg (by rw [hm]; exact Bool.false_ne_true)]
  exact energy_update_resting_some a dt u angle hm

theorem agentStatesLoop_none (l : List Agent) (a : Agent)
    (hv : a.velocity = PyVel.scalarZero) :
    ∀ i, a ∈ l → agentStatesLoop i l = none := by
  induction l with
  | nil =>
    intro i ha
    cases ha
  | cons b rest ih =>
    intro i ha
    unfold agentStatesLoop
    rcases List.mem_cons.mp ha with rfl | hmem
    · rw [hv]
    · cases hvb : b.velocity with
      | vec v =>
        rw [ih (i + 1) hmem]
        rfl
      | scalarZero => rfl

/-- Claim C6: the Moving-to-Resting threshold transition assigns the plain
scalar `0` to the velocity field, so `get_agent_states` (which reads
`velocity.x` and `velocity.y` of every agent) is undefined for any simulation
state containing such a stopped agent, while every other agent operation
guards on `is_moving` and stays defined without touching the scalar
velocity. -/
theorem C6_scalar_zero_velocity_breaks_get_agent_states :
    (∀ a : Agent, ∀ v : Vector2D, ∀ dt u ang : ℝ, a.is_moving = true →
        a.velocity = PyVel.vec v →
        (v.mul (a.energy * Real.exp (-(a.nrg_decay * dt)))).magnitude < 1 →
        ∃ a', a.energy_update dt u ang = some a' ∧
          a'.velocity = PyVel.scalarZero ∧ a'.is_moving = false) ∧
    (∀ s : Simulation, ∀ a : Agent, a ∈ s.agents → a.velocity = PyVel.scalarZero →
        s.get_agent_states = none) ∧
    (∀ a : Agent, ∀ dt u ang : ℝ, a.is_moving = false →
        ∃ a', a.energy_update dt u ang = some a') ∧
    (∀ a b : Agent, a.is_moving = false → a.interact_with_agent b = some a) ∧
    (∀ a : Agent, ∀ b : Boundary, a.is_moving = false →
        a.interact_with_boundary b = some a) ∧
    (∀ a : Agent, ∀ dt sd nx ny u ang : ℝ, a.is_moving = false →
        ∃ a', a.update dt sd nx ny u ang = some a') := by
  refine ⟨?_, ?_, ?_, ?_, ?_, ?_⟩
  · intro a v dt u ang hm hv hlt
    unfold Agent.energy_update
    rw [hv]
    simp only [hm, if_true]
    rw [if_pos hlt]
    exact ⟨_, rfl, rfl, rfl⟩
  · intro s a ha hv
    exact agentStatesLoop_none s.agents a hv 0 ha
  · intro a dt u ang hm
    exact energy_update_resting_some a dt u ang hm
  · intro a b hm
    exact interact_with_agent_resting a b hm
  · intro a b hm
    exact interact_with_boundary_resting a b hm
  · intro a dt sd nx ny u ang hm
    exact update_resting_some a dt sd nx ny u ang hm

/-- A stopped agent: Resting with the scalar `0` stored in `velocity`. -/
noncomputable def c6Agent : Agent :=
  { position := ⟨1, 2⟩
    velocity := .scalarZero
    energy := 3
    radius := 5
    nrg_decay := 1 / 10
    nrg_gain := 1 / 100
    is_moving := false
    movement_time := 4
    base_speed := 10
    max_energy := 6 }

/-- A simulation state containing the stopped agent. -/
noncomputable def c6Sim : Simulation :=
  { boundary := ⟨800, 600⟩
    agents := [c6Agent]
    interaction_radius := 50
    time_step := 1 / 10
    random_std_dev := 1 / 10
    current_time := 0 }

/-- Witness for C6: `get_agent_states` fails on the concrete simulation with
one stopped agent. -/
theorem C6_witness : c6Sim.get_agent_states = none :=
  C6_scalar_zero_velocity_breaks_get_agent_states.2.1 c6Sim c6Agent
    (List.Mem.head _) rfl

/-- A Resting agent whose energy (3) is strictly below its `max_energy` (6):
under the claimed behavior it should regain energy on every simulation step
and eventually resume Moving. -/
noncomputable def c1Agent : Agent :=
  { position := ⟨100, 100⟩
    velocity := .scalarZero
    energy := 3
    radius := 5
    nrg_decay := 1 / 10
    nrg_gain := 1 / 100
    is_moving := false
    movement_time := 4
    base_speed := 10
    max_energy := 6 }

/-- A simulation whose only agent is the Resting `c1Agent`. -/
noncomputable def c1Sim : Simulation :=
  { boundary := ⟨800, 600⟩
    agents := [c1Agent]
    interaction_radius := 50
    time_step := 1 / 10
    random_std_dev := 1 / 10
    current_time := 0 }

theorem c1_sim_update (s : Simulation) (rng : ℕ → Draw)
    (h1 : s.agents = [c1Agent]) :
    s.update rng = some { s with agents := [c1Agent]
                                 current_time := s.current_time + s.time_step } := by
  unfold Simulation.update
  rw [h1]
  rfl

/-- Claim C1 fails on the code: `Simulation.update` guards every per-agent
update with `can_move()`, so a Resting agent is never stepped at all.  Its
energy stays constant forever and it can never transition back to Moving in
a run driven only by repeated simulation steps; only `current_time`
advances. -/
theorem C1_resting_agent_frozen_under_sim_update (rng : ℕ → ℕ → Draw) (n : ℕ) :
    ∃ s', c1Sim.iterate rng n = some s' ∧
      s'.agents = [c1Agent] ∧
      s'.time_step = 1 / 10 ∧
      s'.current_time = n * (1 / 10) := by
  induction n with
  | zero => exact ⟨c1Sim, rfl, rfl, rfl, by norm_num [c1Sim]⟩
  | succ n ih =>
    obtain ⟨s', hit, hag, hts, hct⟩ := ih
    refine ⟨{ s' with agents := [c1Agent]
                      current_time := s'.current_time + s'.time_step }, ?_, rfl, hts, ?_⟩
    · show (c1Sim.iterate rng n).bind (fun t => t.update (rng n)) = _
      rw [hit, Option.some_bind]
      exact c1_sim_update s' (rng n) hag
    · show s'.current_time + s'.time_step = _
      rw [hct, hts]
      push_cast
      ring

/-- Repeated `Agent.update` calls with fixed `delta_time` and `std_dev`;
`rng n` supplies the draws of step `n`. -/
noncomputable def Agent.iterate (a : Agent) (delta_time std_dev : ℝ) (rng : ℕ → Draw) :
    ℕ → Option Agent
  | 0 => some a
  | n + 1 => (a.iterate delta_time std_dev rng n).bind fun b =>
      b.update delta_time std_dev (rng n).nx (rng n).ny (rng n).u (rng n).angle

theorem update_moving_char (b : Agent) (w : Vector2D) (dt nx ny u ang : ℝ)
    (hm : b.is_moving = true) (hv : b.velocity = PyVel.vec w) :
    ∃ b', b.update dt 0 nx ny u ang = some b' ∧
      b'.nrg_decay = b.nrg_decay ∧
      b'.nrg_gain = b.nrg_gain ∧
      b'.max_energy = b.max_energy ∧
      b'.energy = b.energy * Real.exp (-(b.nrg_decay * dt)) ∧
      ((b'.is_moving = false ∧ b'.velocity = PyVel.scalarZero ∧
          (w.mul (b.energy * Real.exp (-(b.nrg_decay * dt)))).magnitude < 1) ∨
       (b'.is_moving = true ∧
          b'.velocity = PyVel.vec (w.mul (b.energy * Real.exp (-(b.nrg_decay * dt)))) ∧
          1 ≤ (w.mul (b.energy * Real.exp (-(b.nrg_decay * dt)))).magnitude)) := by
  unfold Agent.update
  rw [if_pos hm, hv]
  dsimp only
  rw [if_neg (lt_irrefl (0 : ℝ))]
  unfold Agent.energy_update
  dsimp only
  rw [if_pos hm]
  by_cases hlt : (w.mul (b.energy * Real.exp (-(b.nrg_decay * dt)))).magnitude < 1
  · rw [if_pos hlt]
    exact ⟨_, rfl, rfl, rfl, rfl, rfl, Or.inl ⟨rfl, rfl, hlt⟩⟩
  · rw [if_neg hlt]
    exact ⟨_, rfl, rfl, rfl, rfl, rfl, Or.inr ⟨hm, rfl, not_lt.mp hlt⟩⟩

/-- The agent of the C4 counterexample: Moving, energy 2, velocity (10, 0),
decay rate 1/10. -/
noncomputable def c4Agent : Agent :=
  { position := ⟨0, 0⟩
    velocity := .vec ⟨10, 0⟩
    energy := 2
    radius := 5
    nrg_decay := 1 / 10
    nrg_gain := 1 / 100
    is_moving := true
    movement_time := 0
    base_speed := 10
    max_energy := 2 }

/-- An arbitrary fixed draw stream (never consumed while the agent moves
with `std_dev = 0`). -/
noncomputable def c4Rng : ℕ → Draw := fun _ => ⟨0, 0, 1, 0⟩

/-- Counterexample to C4 as stated: with `nrg_decay = 1/10 > 0`, fixed
`delta_time = 1 > 0` and noise standard deviation 0, the very first update
raises the velocity magnitude from 10 to `10 * 2 * exp(-1/10) >= 18`, because
the velocity is rescaled by the raw new energy `2 * exp(-1/10) > 1`.  The
velocity magnitude is therefore not monotonically non-increasing. -/
theorem C4_monotonicity_counterexample :
    ∃ a', c4Agent.iterate 1 0 c4Rng 1 = some a' ∧
      c4Agent.velocity.magValue < a'.velocity.magValue := by
  obtain ⟨b', hupd, hdec, hgain, hmax, hen, hdisj⟩ :=
    update_moving_char c4Agent ⟨10, 0⟩ 1 (c4Rng 0).nx (c4Rng 0).ny (c4Rng 0).u
      (c4Rng 0).angle rfl rfl
  have hiter : c4Agent.iterate 1 0 c4Rng 1 = some b' := by
    show (c4Agent.iterate 1 0 c4Rng 0).bind _ = some b'
    rw [show c4Agent.iterate 1 0 c4Rng 0 = some c4Agent from rfl, Option.some_bind]
    exact hupd
  have hexp : (9 : ℝ) / 10 ≤ Real.exp (-(1 / 10)) := by
    have h := Real.add_one_le_exp (-(1 / 10))
    linarith
  have hval : c4Agent.energy * Real.exp (-(c4Agent.nrg_decay * 1)) =
      2 * Real.exp (-(1 / 10)) := by
    norm_num [c4Agent]
  have hmag10 : (Vector2D.mk 10 0).magnitude = 10 := by
    unfold Vector2D.magnitude
    rw [show (10 : ℝ) ^ 2 + 0 ^ 2 = 10 ^ 2 by norm_num, Real.sqrt_sq (by norm_num)]
  have hepos : (0 : ℝ) < 2 * Real.exp (-(1 / 10)) := by positivity
  have hmagmul :
      ((Vector2D.mk 10 0).mul (c4Agent.energy * Real.exp (-(c4Agent.nrg_decay * 1)))).magnitude =
      2 * Real.exp (-(1 / 10)) * 10 := by
    rw [Vector2D.magnitude_mul, hval, abs_of_pos hepos, hmag10]
  rcases hdisj with ⟨_, _, hlt⟩ | ⟨_, hvel, _⟩
  · rw [hmagmul] at hlt
    linarith
  · refine ⟨b', hiter, ?_⟩
    show (PyVel.vec ⟨10, 0⟩).magValue < b'.velocity.magValue
    rw [hvel]
    show (Vector2D.mk 10 0).magnitude <
      ((Vector2D.mk 10 0).mul (c4Agent.energy * Real.exp (-(c4Agent.nrg_decay * 1)))).magnitude
    rw [hmag10, hmagmul]
    linarith

/-- Claim C4 (amended): an agent that starts Moving with `nrg_decay > 0` and
is repeatedly updated with a fixed positive `delta_time` and noise standard
deviation 0 reaches the Resting state after some number of iterations; the
velocity magnitude is non-increasing across every update step whose new
(post-decay) energy has absolute value at most 1 — which eventually always
holds — but it can increase while the energy exceeds 1. -/
theorem C4_amended_eventual_rest (a : Agent) (v : Vector2D) (dt : ℝ) (rng : ℕ → Draw)
    (hm : a.is_moving = true) (hv : a.velocity = PyVel.vec v)
    (hd : 0 < a.nrg_decay) (hdt : 0 < dt) :
    (∃ n, ∃ a', a.iterate dt 0 rng n = some a' ∧ a'.is_moving = false) ∧
    (∀ b : Agent, ∀ w : Vector2D, ∀ nx ny u ang : ℝ, ∀ b' : Agent,
        b.is_moving = true → b.velocity = PyVel.vec w →
        |b.energy * Real.exp (-(b.nrg_decay * dt))| ≤ 1 →
        b.update dt 0 nx ny u ang = some b' →
        b'.velocity.magValue ≤ b.velocity.magValue) := by
  constructor
  · by_contra hcon
    push_neg at hcon
    have H : ∀ n, ∀ a', a.iterate dt 0 rng n = some a' → a'.is_moving = true := by
      intro n a' h
      cases hb : a'.is_moving with
      | true => rfl
      | false => exact absurd hb (hcon n a' h)
    have hq0 : 0 < Real.exp (-(a.nrg_decay * dt)) := Real.exp_pos _
    have hq1 : Real.exp (-(a.nrg_decay * dt)) < 1 :=
      Real.exp_lt_one_iff.mpr (neg_lt_zero.mpr (mul_pos hd hdt))
    have main : ∀ n, ∃ b w, a.iterate dt 0 rng n = some b ∧ b.velocity = PyVel.vec w ∧
        b.nrg_decay = a.nrg_decay ∧
        b.energy = a.energy * Real.exp (-(a.nrg_decay * dt)) ^ n := by
      intro n
      induction n with
      | zero => exact ⟨a, v, rfl, hv, rfl, by simp⟩
      | succ n ih =>
        obtain ⟨b, w, hb, hw, hdec, hen⟩ := ih
        obtain ⟨b', hupd, hdec', _, _, hen', hdisj⟩ :=
          update_moving_char b w dt (rng n).nx (rng n).ny (rng n).u (rng n).angle
            (H n b hb) hw
        have hit : a.iterate dt 0 rng (n + 1) = some b' := by
          show (a.iterate dt 0 rng n).bind _ = some b'
          rw [hb, Option.some_bind]
          exact hupd
        rcases hdisj with ⟨hf, _, _⟩ | ⟨_, hvel, _⟩
        · exact absurd (H (n + 1) b' hit) (by rw [hf]; exact Bool.false_ne_true)
        · refine ⟨b', w.mul (b.energy * Real.exp (-(b.nrg_decay * dt))), hit, hvel,
            hdec'.trans hdec, ?_⟩
          rw [hen', hdec, hen]
          ring
    have step : ∀ n b w b2 w2, a.iterate dt 0 rng n = some b → b.velocity = PyVel.vec w →
        a.iterate dt 0 rng (n + 1) = some b2 → b2.velocity = PyVel.vec w2 →
        w2.magnitude = |b.energy * Real.exp (-(b.nrg_decay * dt))| * w.magnitude ∧
        1 ≤ w2.magnitude := by
      intro n b w b2 w2 hb hw hb2 hw2
      obtain ⟨b', hupd, _, _, _, _, hdisj⟩ :=
        update_moving_char b w dt (rng n).nx (rng n).ny (rng n).u (rng n).angle
          (H n b hb) hw
      have hit : a.iterate dt 0 rng (n + 1) = some b' := by
        show (a.iterate dt 0 rng n).bind _ = some b'
        rw [hb, Option.some_bind]
        exact hupd
      have hbb : b' = b2 := Option.some.inj (hit.symm.trans hb2)
      subst hbb
      rcases hdisj with ⟨hf, _, _⟩ | ⟨_, hvel, hge⟩
      · exact absurd (H (n + 1) b' hb2) (by rw [hf]; exact Bool.false_ne_true)
      · have hww : w2 = w.mul (b.energy * Real.exp (-(b.nrg_decay * dt))) := by
          rw [hw2] at hvel
          exact PyVel.vec.inj hvel
        constructor
        · rw [hww, Vector2D.magnitude_mul]
        · rw [hww]
          exact hge
    obtain ⟨N, hNlt⟩ := exists_pow_lt_of_lt_one
      (show (0 : ℝ) < 1 / 2 / (|a.energy| + 1) by positivity) hq1
    have hN : |a.energy| * Real.exp (-(a.nrg_decay * dt)) ^ N ≤ 1 / 2 := by
      have h1 : (0 : ℝ) < |a.energy| + 1 := by positivity
      have h2 : (0 : ℝ) ≤ Real.exp (-(a.nrg_decay * dt)) ^ N := by positivity
      have h3 : (|a.energy| + 1) * (1 / 2 / (|a.energy| + 1)) = 1 / 2 := by
        field_simp
        ring
      have h4 : (|a.energy| + 1) * Real.exp (-(a.nrg_decay * dt)) ^ N <
          (|a.energy| + 1) * (1 / 2 / (|a.energy| + 1)) :=
        mul_lt_mul_of_pos_left hNlt h1
      have h5 : |a.energy| * Real.exp (-(a.nrg_decay * dt)) ^ N ≤
          (|a.energy| + 1) * Real.exp (-(a.nrg_decay * dt)) ^ N :=
        mul_le_mul_of_nonneg_right (by linarith) h2
      linarith
    have hEdec : ∀ k, |a.energy| * Real.exp (-(a.nrg_decay * dt)) ^ (N + k) ≤ 1 / 2 := by
      intro k
      have hp : Real.exp (-(a.nrg_decay * dt)) ^ (N + k) ≤
          Real.exp (-(a.nrg_decay * dt)) ^ N :=
        pow_le_pow_of_le_one hq0.le hq1.le (Nat.le_add_right N k)
      have hmul := mul_le_mul_of_nonneg_left hp (abs_nonneg a.energy)
      linarith
    obtain ⟨bN, wN, hbN, hwN, _, _⟩ := main N
    have bound : ∀ k, ∀ b w, a.iterate dt 0 rng (N + k) = some b →
        b.velocity = PyVel.vec w → w.magnitude ≤ wN.magnitude * (1 / 2) ^ k := by
      intro k
      induction k with
      | zero =>
        intro b w hb hw
        have hbb : b = bN := Option.some.inj (hb.symm.trans hbN)
        subst hbb
        have hww : w = wN := PyVel.vec.inj (hw.symm.trans hwN)
        subst hww
        simp
      | succ k ih =>
        intro b2 w2 hb2 hw2
        obtain ⟨b, w, hb, hw, hdec, hen⟩ := main (N + k)
        obtain ⟨hmagrel, _⟩ := step (N + k) b w b2 w2 hb hw hb2 hw2
        have habs : |b.energy * Real.exp (-(b.nrg_decay * dt))| =
            |a.energy| * Real.exp (-(a.nrg_decay * dt)) ^ (N + (k + 1)) := by
          rw [hen, hdec, abs_mul, abs_mul, abs_of_pos hq0, abs_of_pos (pow_pos hq0 _)]
          ring
        have h1 : |b.energy * Real.exp (-(b.nrg_decay * dt))| ≤ 1 / 2 := by
          rw [habs]
          exact hEdec (k + 1)
        have h2 : w.magnitude ≤ wN.magnitude * (1 / 2) ^ k := ih b w hb hw
        rw [hmagrel]
        calc |b.energy * Real.exp (-(b.nrg_decay * dt))| * w.magnitude ≤
              1 / 2 * (wN.magnitude * (1 / 2) ^ k) :=
              mul_le_mul h1 h2 w.magnitude_nonneg (by norm_num)
          _ = wN.magnitude * (1 / 2) ^ (k + 1) := by ring
    obtain ⟨k0, hk0⟩ := exists_pow_lt_of_lt_one
      (show (0 : ℝ) < 1 / (wN.magnitude + 1) from
        div_pos one_pos (by linarith [wN.magnitude_nonneg]))
      (show (1 : ℝ) / 2 < 1 by norm_num)
    obtain ⟨bf, wf, hbf, hwf, _, _⟩ := main (N + (k0 + 1))
    obtain ⟨bp, wp, hbp, hwp, _, _⟩ := main (N + k0)
    obtain ⟨_, hge⟩ := step (N + k0) bp wp bf wf hbp hwp hbf hwf
    have hb1 : wf.magnitude ≤ wN.magnitude * (1 / 2) ^ (k0 + 1) :=
      bound (k0 + 1) bf wf hbf hwf
    have hMnn : 0 ≤ wN.magnitude := wN.magnitude_nonneg
    have hc1 : wN.magnitude * (1 / 2) ^ (k0 + 1) ≤ wN.magnitude * (1 / 2) ^ k0 :=
      mul_le_mul_of_nonneg_left
        (pow_le_pow_of_le_one (by norm_num) (by norm_num) (Nat.le_succ k0)) hMnn
    have hc2 : wN.magnitude * (1 / 2) ^ k0 ≤ wN.magnitude * (1 / (wN.magnitude + 1)) :=
      mul_le_mul_of_nonneg_left hk0.le hMnn
    have hc3 : wN.magnitude * (1 / (wN.magnitude + 1)) < 1 := by
      rw [mul_one_div, div_lt_one (by linarith [wN.magnitude_nonneg])]
      linarith
    linarith
  · intro b w nx ny u ang b' hbm hbv hle hupd
    obtain ⟨b'', hupd', _, _, _, hen', hdisj⟩ := update_moving_char b w dt nx ny u ang hbm hbv
    have hbb : b'' = b' := Option.some.inj (hupd'.symm.trans hupd)
    subst hbb
    rw [hbv]
    rcases hdisj with ⟨_, hvel, _⟩ | ⟨_, hvel, _⟩
    · rw [hvel]
      show (0 : ℝ) ≤ w.magnitude
      exact w.magnitude_nonneg
    · rw [hvel]
      show (w.mul (b.energy * Real.exp (-(b.nrg_decay * dt)))).magnitude ≤ w.magnitude
      rw [Vector2D.magnitude_mul]
      have h2 := mul_le_mul_of_nonneg_right hle w.magnitude_nonneg
      linarith

/-- Witness for the amended C4: the concrete agent `c4Agent` (Moving, decay
1/10, step 1, no noise) eventually reaches Resting. -/
theorem C4_amended_witness :
    ∃ n, ∃ a', c4Agent.iterate 1 0 c4Rng n = some a' ∧ a'.is_moving = false :=
  (C4_amended_eventual_rest c4Agent ⟨10, 0⟩ 1 c4Rng rfl rfl (by norm_num [c4Agent])
    (by norm_num)).1
